import Mathlib

/-!
Verification of the EntityDB core (src/index.js): a vector-similarity store
with cosine ranking over dense vectors, Hamming ranking over packed binary
vectors, a scalar and a WASM-SIMD Hamming path, and record CRUD over an
IndexedDB-style transactional backend.

JavaScript values stored in records are modelled by the inductive `Value`
(numbers as rationals, dense vectors as rational lists, packed bit-vectors as
lists of 64-bit words).  JS objects are association lists of string keys;
object spread is the `mergeObj` function.  Real-number computations (cosine
similarity, magnitudes via Math.sqrt) are modelled over the reals, with
`Option` tracking non-finite results (NaN / division by zero): `none` stands
for a computation that produces no finite number.
-/

deriving instance DecidableEq for Except

namespace EntityDB

/-- A JavaScript value as it appears in EntityDB records: numbers, strings,
booleans, plain arrays of numbers (dense vectors), BigUint64Array packed
bit-vectors (words < 2^64), null and undefined. -/
inductive Value where
  | num (q : ℚ)
  | str (s : String)
  | bool (b : Bool)
  | arr (xs : List ℚ)
  | packed (ws : List ℕ)
  | null
  | undef
deriving DecidableEq

/-- A JavaScript object: an association list from property names to values
(first binding wins on lookup, as in our canonical merge form). -/
abbrev Obj : Type := List (String × Value)

/-- Property read returning `none` when the property is absent. -/
def getProp (o : Obj) (k : String) : Option Value :=
  (o.find? (fun p => p.1 = k)).map Prod.snd

/-- Property read as JavaScript sees it: an absent property reads as
undefined. -/
def getJS (o : Obj) (k : String) : Value :=
  (getProp o k).getD Value.undef

/-- One binding of the left spread operand, with its value overridden by the
right operand when the right operand also has the key. -/
def overrideWith (b : Obj) (p : String × Value) : String × Value :=
  match getProp b p.1 with
  | some v => (p.1, v)
  | none => p

/-- JS object spread: the result of evaluating a literal that spreads `a` and
then `b` (keys of `a` in order with values overridden by `b` where present,
followed by the keys only `b` has). -/
def mergeObj (a b : Obj) : Obj :=
  a.map (overrideWith b) ++ b.filter (fun p => (getProp a p.1).isNone)

/-- JS nullish test: true exactly for null and undefined (the values the
source's loose `== null` check and the `??` operator react to). -/
def nullish : Value → Bool
  | Value.null => true
  | Value.undef => true
  | _ => false

/-- JS truthiness of a `Value` (used for the `if (data.text)` check). -/
def truthy : Value → Bool
  | Value.null => false
  | Value.undef => false
  | Value.bool b => b
  | Value.num q => decide (q ≠ 0)
  | Value.str s => decide (s ≠ "")
  | Value.arr _ => true
  | Value.packed _ => true

/-- The backend object store, keyed by the record's `id` property (the store
is created with keyPath "id").  Enumeration order is the backend's. -/
abbrev Store : Type := List Obj

/-- The keyPath of the "vectors" object store (`createObjectStore("vectors",
{ keyPath: "id" })`). -/
def keyPath : String := "id"

/-- Backend `get(key)`: the record whose keyPath property equals the key. -/
def storeGet (s : Store) (key : Value) : Option Obj :=
  s.find? (fun r => getJS r keyPath = key)

/-- Backend `add(record)`: insert that fails on a duplicate key. -/
def storeAdd (s : Store) (r : Obj) : Except String Store :=
  if s.any (fun x => getJS x keyPath = getJS r keyPath) then
    Except.error "Key already exists in the object store"
  else
    Except.ok (s ++ [r])

/-- Backend `put(record)`: upsert by key. -/
def putRec (s : Store) (r : Obj) : Store :=
  if s.any (fun x => getJS x keyPath = getJS r keyPath) then
    s.map (fun x => if getJS x keyPath = getJS r keyPath then r else x)
  else
    s ++ [r]

/-! ### Sorting

JavaScript's `Array.prototype.sort` with a numeric comparator is a stable
sort (required since ES2019).  We model it by stable insertion sort driven by
the comparator's strict "comes before" relation: `lt y x` holds when the
comparator places `y` strictly before `x`; elements comparing equal keep
their original relative order. -/

/-- Insert `x` into a sorted list, after every element strictly before it. -/
def insSorted (lt : α → α → Bool) (x : α) : List α → List α
  | [] => [x]
  | y :: ys => if lt y x then y :: insSorted lt x ys else x :: y :: ys

/-- Stable insertion sort by the strict "comes before" relation `lt`. -/
def insSort (lt : α → α → Bool) : List α → List α
  | [] => []
  | x :: xs => insSorted lt x (insSort lt xs)

/-- The source's `[...vector].sort((a, b) => a - b)`: numeric ascending. -/
def sortValsAsc (v : List ℚ) : List ℚ :=
  insSort (fun a b => decide (a < b)) v

/-- JS `array.slice(0, limit)`: for nonnegative `limit` the first `limit`
elements; for negative `limit` everything but the last `-limit` elements
(clamped at zero). -/
def jsSlice0 (l : List α) (limit : ℤ) : List α :=
  if 0 ≤ limit then l.take limit.toNat
  else l.take (l.length - (-limit).toNat)

/-! ### Quantizer -/

/-- The source's `binarizeVector(vector, threshold = null)`: with no
threshold, the median of the sorted values (mean of the two middle values for
even length, middle value for odd length); each component maps to 1 when it
is ≥ the threshold, else 0. -/
def binarizeVector (vector : List ℚ) (threshold : Option ℚ) : List ℚ :=
  let t : ℚ :=
    match threshold with
    | some t => t
    | none =>
      let sorted := sortValsAsc vector
      let mid := sorted.length / 2
      if sorted.length % 2 = 0 then (sorted.getD (mid - 1) 0 + sorted.getD mid 0) / 2
      else sorted.getD mid 0
  vector.map (fun val => if t ≤ val then 1 else 0)

/-- The median threshold exactly as the spec words it: for an even-length
vector the average of the two middle values of the sorted values, for an
odd-length vector the middle value. -/
def specMedian (v : List ℚ) : ℚ :=
  let sorted := sortValsAsc v
  if v.length % 2 = 0 then
    (sorted.getD (v.length / 2 - 1) 0 + sorted.getD (v.length / 2) 0) / 2
  else sorted.getD (v.length / 2) 0

/-- One iteration of the pack loop: when `bits[i] === 1`, OR bit `i % 64`
into word `i / 64` (the BigUint64Array write stores the value mod 2^64). -/
def packStep (bits : List ℚ) (ws : List ℕ) (i : ℕ) : List ℕ :=
  if bits.getD i 0 = 1 then
    ws.set (i / 64) (((ws.getD (i / 64) 0) ||| (1 <<< (i % 64))) % 2 ^ 64)
  else ws

/-- The pack loop shared by `insertBinary`, `queryBinary` and
`queryBinarySIMD`: a BigUint64Array of `ceil(len/64)` zero words, then one
`packStep` for every index of the bit list. -/
def packWords (bits : List ℚ) : List ℕ :=
  (List.range bits.length).foldl (packStep bits)
    (List.replicate ((bits.length + 63) / 64) 0)

/-- Modelled from the spec: the repository ships no standalone unpack
routine (only the pack loops above); section 4.1 of the spec defines
`unpack(packed, len) -> bits` as the exact inverse of pack, reading bit `i`
from word `floor(i/64)` at position `i mod 64` (least-significant-bit first)
for every `i < len`. -/
def unpackWords (packed : List ℕ) (len : ℕ) : List ℚ :=
  (List.range len).map (fun i => if (packed.getD (i / 64) 0).testBit (i % 64) then 1 else 0)

/-! ### DistanceEngine: scalar path -/

/-- Fuel-driven binary-digit sum; `n` halves to zero within `n` steps, so
`n` itself is always enough fuel. -/
def popcountAux : ℕ → ℕ → ℕ
  | 0, _ => 0
  | _ + 1, 0 => 0
  | fuel + 1, n + 1 => (n + 1) % 2 + popcountAux fuel ((n + 1) / 2)

/-- Number of set bits, as computed by `xor.toString(2)` with the zeros
removed. -/
def popcount (n : ℕ) : ℕ := popcountAux n n

/-- The source's scalar `hammingDistance`: throws when the word counts
differ, otherwise sums the popcount of the word-wise XOR. -/
def hammingDistance (vectorA vectorB : List ℕ) : Except String ℕ :=
  if vectorA.length ≠ vectorB.length then
    Except.error "Vectors must be of the same length"
  else
    Except.ok ((vectorA.zip vectorB).foldl (fun d p => d + popcount (p.1 ^^^ p.2)) 0)

/-! ### DistanceEngine: accelerated (WASM SIMD) path

The embedded module (hamming_distance_simd.wat) defines one zeroed 64 KiB
linear memory and exports `hamming_distance(ptrA, ptrB, len)`.  Decoded body:
while the i32 local `len` is nonzero it loads 128 bits at `ptrA` and `ptrB`,
XORs them, adds the i32.popcnt of the four i32 lanes to `dist`, advances both
pointers by 16 and subtracts 16 from `len` (i32 wraparound).  When `len` is
not a multiple of 16 the counter never reaches 0 and the loads run off the
end of the single memory page, trapping: no value is returned (`none`). -/

/-- Little-endian byte image of a list of 64-bit words. -/
def wordsToBytes (ws : List ℕ) : List ℕ :=
  (ws.map (fun w => (List.range 8).map (fun j => w / 2 ^ (8 * j) % 256))).flatten

/-- Little-endian 32-bit load from byte-addressed memory. -/
def load32 (mem : ℕ → ℕ) (p : ℕ) : ℕ :=
  mem p + 256 * mem (p + 1) + 256 ^ 2 * mem (p + 2) + 256 ^ 3 * mem (p + 3)

/-- One loop iteration: popcounts of the four i32 lanes of the 128-bit XOR
of the blocks at `pa` and `pb`. -/
def simdChunk (mem : ℕ → ℕ) (pa pb : ℕ) : ℕ :=
  ((List.range 4).map
    (fun k => popcount (load32 mem (pa + 4 * k) ^^^ load32 mem (pb + 4 * k)))).sum

/-- The exported `hamming_distance` entry point.  `none` models the trap
reached when `len` is not a multiple of 16 (the decremented i32 counter skips
0 and the loads leave the one-page memory). -/
def wasmHammingDistance (mem : ℕ → ℕ) (pa pb len : ℕ) : Option ℕ :=
  if len % 16 = 0 then
    some (((List.range (len / 16)).map
      (fun it => simdChunk mem (pa + 16 * it) (pb + 16 * it))).sum)
  else none

/-- The linear memory as `queryBinarySIMD` prepares it for one record: the
query's bytes written at offset 0, then the record's bytes written at offset
16 (overwriting any query bytes there), zeros elsewhere. -/
def simdMemory (query db : List ℕ) : ℕ → ℕ :=
  fun addr =>
    if 16 ≤ addr ∧ addr - 16 < (wordsToBytes db).length then
      (wordsToBytes db).getD (addr - 16) 0
    else if addr < (wordsToBytes query).length then
      (wordsToBytes query).getD addr 0
    else 0

/-- The accelerated distance `queryBinarySIMD` computes for one stored
record: memory laid out by `simdMemory`, then
`hamming_distance(0, 16, packedQueryVector.length * 8)`. -/
def queryBinarySIMDDistance (query db : List ℕ) : Option ℕ :=
  wasmHammingDistance (simdMemory query db) 0 16 (query.length * 8)

/-! ### RecordStore: insert family

The external embedding provider (`getEmbeddingFromText`) is an opaque
collaborator; every operation that may call it takes it as the parameter
`embed`.  `vp` is the store's configured `vectorPath`. -/

/-- The embedding `insert`/`insertBinary`/`insertBatch` resolve for a record:
`data[this.vectorPath]`, replaced by the embedder's output when `data.text`
is truthy. -/
def resolveEmbedding (embed : Value → List ℚ) (vp : String) (data : Obj) : Value :=
  if truthy (getJS data "text") then Value.arr (embed (getJS data "text"))
  else getJS data vp

/-- The record `insert` and `insertBatch` store: `{ vector: embedding,
...data }`. -/
def insertRecord (embed : Value → List ℚ) (vp : String) (data : Obj) : Obj :=
  mergeObj [("vector", resolveEmbedding embed vp data)] data

/-- The source's `insert(data)`: requires an id, resolves the embedding,
and `add`s `{ vector: embedding, ...data }` (the try/catch only rewraps the
error message). -/
def insert (embed : Value → List ℚ) (vp : String) (s : Store) (data : Obj) :
    Except String Store :=
  if nullish (getJS data "id") then Except.error "ID is required for insert"
  else storeAdd s (insertRecord embed vp data)

/-- The record `insertBinary` stores: the resolved embedding binarized and
packed into 64-bit words, then `{ vector: packedEmbedding, ...data }`.
Errors when the resolved embedding is not a plain array (the JS spread in
`binarizeVector` would throw a TypeError). -/
def insertBinaryRecord (embed : Value → List ℚ) (vp : String) (data : Obj) :
    Except String Obj :=
  match resolveEmbedding embed vp data with
  | Value.arr xs =>
      Except.ok (mergeObj [("vector", Value.packed (packWords (binarizeVector xs none)))] data)
  | _ => Except.error "embedding is not an array"

/-- The source's `insertBinary(data)`. -/
def insertBinary (embed : Value → List ℚ) (vp : String) (s : Store) (data : Obj) :
    Except String Store :=
  if nullish (getJS data "id") then Except.error "ID is required for binary insert"
  else
    match insertBinaryRecord embed vp data with
    | Except.error e => Except.error e
    | Except.ok rec => storeAdd s rec

/-- The source's `insertBatch(dataArray)`: one readwrite transaction that
walks the batch, requires an id per record, resolves each embedding and
`add`s `{ vector: embedding, ...data }`; any failure aborts the whole
transaction. -/
def insertBatch (embed : Value → List ℚ) (vp : String) :
    Store → List Obj → Except String Store
  | s, [] => Except.ok s
  | s, data :: rest =>
    if nullish (getJS data "id") then Except.error "ID is required for batch insert"
    else
      match storeAdd s (insertRecord embed vp data) with
      | Except.error e => Except.error e
      | Except.ok s' => insertBatch embed vp s' rest

/-- Modelled from the spec: the store state after an `insertBatch` call.
The backend (section 6) is an ordered transactional key-value store with
automatic rollback on in-scope failure, and section 4.4 delegates batch
atomicity to it: when the transaction fails, no write of the batch
persists and the store keeps its prior state. -/
def insertBatchPost (embed : Value → List ℚ) (vp : String) (s : Store)
    (batch : List Obj) : Store :=
  match insertBatch embed vp s batch with
  | Except.ok s' => s'
  | Except.error _ => s

/-! ### RecordStore: update family -/

/-- The vector the update merge keeps: `data[this.vectorPath] ?? data.vector`
when that is a nonempty plain array, otherwise the previously stored
`existing.vector`. -/
def vecToStore (vp : String) (existing data : Obj) : Value :=
  let newVec := if nullish (getJS data vp) then getJS data "vector" else getJS data vp
  match newVec with
  | Value.arr xs => if 0 < xs.length then Value.arr xs else getJS existing "vector"
  | _ => getJS existing "vector"

/-- The merged record `update`/`updateBatch` put back:
`{ ...existing, ...data, [store.keyPath]: key, vector: vecToStore }`. -/
def applyPatch (vp : String) (existing : Obj) (key : Value) (data : Obj) : Obj :=
  mergeObj (mergeObj (mergeObj existing data) [(keyPath, key)])
    [("vector", vecToStore vp existing data)]

/-- The source's `update(key, data)`: fails on a missing key, otherwise
merges and puts. -/
def update (vp : String) (s : Store) (key : Value) (data : Obj) :
    Except String Store :=
  match storeGet s key with
  | none => Except.error "Cannot update non-existent key"
  | some existing => Except.ok (putRec s (applyPatch vp existing key data))

/-- The source's `updateBatch(updates)`: each item is destructured as
`{ key, ...data }`; a missing key is skipped (`continue`), a present one is
merged and put; the transaction commits. -/
def updateBatch (vp : String) (s : Store) (updates : List (Value × Obj)) : Store :=
  updates.foldl
    (fun s' u =>
      match storeGet s' u.1 with
      | none => s'
      | some existing => putRec s' (applyPatch vp existing u.1 u.2))
    s

/-! ### RecordStore: embedding presence checks -/

/-- The vector the presence checks resolve:
`record[this.vectorPath] ?? record.vector`. -/
def resolveVec (vp : String) (record : Obj) : Value :=
  if nullish (getJS record vp) then getJS record "vector" else getJS record vp

/-- The per-key check `hasEmbedding` and `hasEmbeddings` both perform (their
bodies are line-for-line identical in the source): false for a missing
record, else true exactly when the resolved vector is a plain array of
nonzero length. -/
def hasVecCheck (vp : String) (s : Store) (key : Value) : Bool :=
  match storeGet s key with
  | none => false
  | some record =>
    match resolveVec vp record with
    | Value.arr xs => decide (0 < xs.length)
    | _ => false

/-- The source's `hasEmbedding(key)` (the try/catch only rewraps backend
errors, which the model's total backend never raises). -/
def hasEmbedding (vp : String) (s : Store) (key : Value) : Bool :=
  hasVecCheck vp s key

/-- The source's `hasEmbeddings(keys)`: the same per-key check, collected
into a key-to-boolean mapping. -/
def hasEmbeddings (vp : String) (s : Store) (keys : List Value) :
    List (Value × Bool) :=
  keys.map (fun key => (key, hasVecCheck vp s key))

/-! ### SimilarityEngine

JS numbers are modelled as `Option ℝ`: `none` stands for a non-finite result
(NaN, or the infinities produced by dividing by zero).  Reading `vecB[index]`
out of range yields undefined, and any arithmetic on undefined yields NaN,
so an out-of-range read is `none` and `none` is absorbing. -/

/-- NaN-propagating addition. -/
def jsAdd : Option ℝ → Option ℝ → Option ℝ
  | some x, some y => some (x + y)
  | _, _ => none

/-- NaN-propagating multiplication (a `none` operand also covers the
undefined produced by an out-of-range index). -/
def jsMul : Option ℝ → Option ℝ → Option ℝ
  | some x, some y => some (x * y)
  | _, _ => none

/-- Division by a real denominator: no finite value when the denominator is
zero (JS produces NaN or an infinity there). -/
noncomputable def jsDiv (x : Option ℝ) (d : ℝ) : Option ℝ :=
  match x with
  | some x => if d = 0 then none else some (x / d)
  | none => none

/-- The dot-product accumulator of `vecA.reduce((sum, val, index) => sum +
val * vecB[index], 0)`: a left fold over vecA's values carrying the running
index into vecB. -/
def dotGo (b : List ℝ) : List ℝ → ℕ → Option ℝ → Option ℝ
  | [], _, sum => sum
  | val :: rest, i, sum => dotGo b rest (i + 1) (jsAdd sum (jsMul (some val) (b.get? i)))

/-- The source's dot product over vecA's indices. -/
def dotJS (vecA vecB : List ℝ) : Option ℝ :=
  dotGo vecB vecA 0 (some 0)

/-- The source's magnitude: `Math.sqrt(vec.reduce((sum, val) => sum + val *
val, 0))`. -/
noncomputable def magJS (v : List ℝ) : ℝ :=
  Real.sqrt (v.foldl (fun sum val => sum + val * val) 0)

/-- The source's `cosineSimilarity(vecA, vecB)`: the dot product over vecA's
indices divided by the product of the magnitudes.  There is no length check
and no error path. -/
noncomputable def cosineSimilarity (vecA vecB : List ℝ) : Option ℝ :=
  jsDiv (dotJS vecA vecB) (magJS vecA * magJS vecB)

/-! ### QueryEngine

Each query enumerates every stored record, scores it, stable-sorts by the
comparator and slices to the limit.  The JS `{ ...entry, score }` result is
modelled as the pair of the record and its score.  The comparator
`(a, b) => b.similarity - a.similarity` places `y` strictly before `x`
exactly when `y`'s similarity is greater (no ordering is defined when a
similarity is NaN; such comparisons return false here). -/

/-- Strict "comes before" for descending similarity. -/
noncomputable def simDescBefore (y x : Obj × Option ℝ) : Bool :=
  match y.2, x.2 with
  | some a, some b => decide (b < a)
  | _, _ => false

/-- Strict "comes before" for ascending Hamming distance
(`(a, b) => a.distance - b.distance`). -/
def distAscBefore (y x : Obj × ℕ) : Bool :=
  decide (y.2 < x.2)

/-- The scoring pass `vectors.map(entry => ...)` of the queries: the first
record whose scoring throws aborts the whole query with that error. -/
def mapScores (f : Obj → Except String α) : List Obj → Except String (List α)
  | [] => Except.ok []
  | e :: rest =>
    match f e with
    | Except.error msg => Except.error msg
    | Except.ok x =>
      match mapScores f rest with
      | Except.error msg => Except.error msg
      | Except.ok xs => Except.ok (x :: xs)

/-- The source's `query(queryText, { limit = 10 })`: embeds the text, scores
every record by cosine similarity against `entry.vector` (a record whose
vector is not a plain array makes the scoring throw, failing the query),
sorts descending and slices. -/
noncomputable def query (embed : Value → List ℚ) (queryText : Value)
    (recs : List Obj) (limit : ℤ) : Except String (List (Obj × Option ℝ)) :=
  let qv : List ℝ := (embed queryText).map (fun q => (q : ℝ))
  match mapScores (fun e =>
      match getJS e "vector" with
      | Value.arr xs => Except.ok (e, cosineSimilarity qv (xs.map (fun q => (q : ℝ))))
      | _ => (Except.error "entry.vector is not a plain array" : Except String (Obj × Option ℝ)))
      recs with
  | Except.error e => Except.error e
  | Except.ok sims => Except.ok (jsSlice0 (insSort simDescBefore sims) limit)

/-- The source's `queryBinary(queryText, { limit = 10 })`: embeds, binarizes
and packs the query, scores every record by the scalar Hamming distance
against `entry.vector`, sorts ascending and slices.  A record whose vector
is not a packed word array, or whose word count differs, fails the query. -/
def queryBinary (embed : Value → List ℚ) (queryText : Value)
    (recs : List Obj) (limit : ℤ) : Except String (List (Obj × ℕ)) :=
  let packedQuery := packWords (binarizeVector (embed queryText) none)
  match mapScores (fun e =>
      match getJS e "vector" with
      | Value.packed ws =>
        (match hammingDistance packedQuery ws with
         | Except.ok d => Except.ok (e, d)
         | Except.error msg => Except.error msg)
      | _ => (Except.error "entry.vector is not a packed vector" : Except String (Obj × ℕ)))
      recs with
  | Except.error e => Except.error e
  | Except.ok dists => Except.ok (jsSlice0 (insSort distAscBefore dists) limit)

/-- The per-record vector resolution of `queryManualVectors`: the configured
field when it is a plain array, else `entry.vector` when that is a plain
array, else nothing (the record is skipped with a warning). -/
def resolveManual (vp : String) (e : Obj) : Option (List ℚ) :=
  match getJS e vp with
  | Value.arr xs => some xs
  | _ =>
    match getJS e "vector" with
    | Value.arr xs => some xs
    | _ => none

/-- The source's `queryManualVectors(queryVector, { limit = 10 })`: scores
every record with a resolvable plain-array vector by cosine similarity
(records without one are skipped), sorts descending and slices. -/
noncomputable def queryManualVectors (vp : String) (queryVector : List ℚ)
    (recs : List Obj) (limit : ℤ) : List (Obj × Option ℝ) :=
  let qv : List ℝ := queryVector.map (fun q => (q : ℝ))
  let sims := recs.filterMap (fun e =>
    (resolveManual vp e).map (fun xs => (e, cosineSimilarity qv (xs.map (fun q => (q : ℝ))))))
  jsSlice0 (insSort simDescBefore sims) limit

/-! ### Generic helper lemmas -/

theorem length_insSorted (lt : α → α → Bool) (x : α) (l : List α) :
    (insSorted lt x l).length = l.length + 1 := by
  induction l with
  | nil => rfl
  | cons y ys ih =>
    unfold insSorted
    by_cases h : lt y x = true
    · simp [h, ih]
    · simp [h]

theorem length_insSort (lt : α → α → Bool) (l : List α) :
    (insSort lt l).length = l.length := by
  induction l with
  | nil => rfl
  | cons x xs ih => simp [insSort, length_insSorted, ih]

theorem length_jsSlice0 (l : List α) (limit : ℤ) :
    (jsSlice0 l limit).length =
      if 0 ≤ limit then min limit.toNat l.length else l.length - (-limit).toNat := by
  unfold jsSlice0
  by_cases h : 0 ≤ limit
  · simp [h]
  · simp [h, Nat.min_eq_left (Nat.sub_le _ _)]

theorem jsSlice0_nil (limit : ℤ) : jsSlice0 ([] : List α) limit = [] := by
  unfold jsSlice0
  by_cases h : 0 ≤ limit <;> simp [h]

theorem jsSlice0_zero (l : List α) : jsSlice0 l 0 = [] := by
  unfold jsSlice0
  simp

theorem overrideWith_fst (b : Obj) (p : String × Value) :
    (overrideWith b p).1 = p.1 := by
  unfold overrideWith
  cases getProp b p.1 <;> rfl

theorem find?_map_override (a b : Obj) (k : String) :
    List.find? (fun p => p.1 = k) (a.map (overrideWith b))
    = (List.find? (fun p => p.1 = k) a).map (overrideWith b) := by
  induction a with
  | nil => rfl
  | cons p rest ih =>
    simp only [List.map_cons, List.find?_cons, overrideWith_fst]
    by_cases h : p.1 = k
    · simp [h]
    · simp [h, ih]

theorem getProp_append (x y : Obj) (k : String) :
    getProp (x ++ y) k = (getProp x k).or (getProp y k) := by
  unfold getProp
  rw [List.find?_append]
  cases List.find? (fun p => decide (p.1 = k)) x <;> simp

theorem find?_filter_keyPred (b : Obj) (pred : String → Bool) (k : String) :
    List.find? (fun p => p.1 = k) (b.filter (fun p => pred p.1))
    = if pred k then List.find? (fun p => p.1 = k) b else none := by
  induction b with
  | nil => simp
  | cons q rest ih =>
    by_cases hq : q.1 = k
    · subst hq
      cases hpred : pred q.1 <;> simp [List.filter_cons, hpred, List.find?_cons, ih]
    · cases hpred : pred q.1 <;>
        simp [List.filter_cons, hpred, List.find?_cons, hq, ih]

/-- Lookup in a singleton object. -/
theorem getProp_single (k : String) (v : Value) (key : String) :
    getProp [(k, v)] key = if k = key then some v else none := by
  by_cases h : k = key <;> simp [getProp, List.find?_cons, h]

/-- Property lookup on a JS spread: the right object's binding wins, the left
object's is the fallback. -/
theorem getProp_mergeObj (a b : Obj) (k : String) :
    getProp (mergeObj a b) k = (getProp b k).or (getProp a k) := by
  unfold mergeObj
  rw [getProp_append]
  have hmapped : getProp (a.map (overrideWith b)) k
      = (List.find? (fun p => p.1 = k) a).map (fun p => (overrideWith b p).2) := by
    unfold getProp
    rw [find?_map_override]
    cases List.find? (fun p => decide (p.1 = k)) a <;> rfl
  have hfiltered : getProp (b.filter (fun p => (getProp a p.1).isNone)) k
      = if (getProp a k).isNone then getProp b k else none := by
    unfold getProp
    rw [find?_filter_keyPred b (fun key =>
      ((List.find? (fun p => p.1 = key) a).map Prod.snd).isNone) k]
    by_cases h : ((List.find? (fun p => decide (p.1 = k)) a).map Prod.snd).isNone <;>
      simp [h]
  rw [hmapped, hfiltered]
  cases ha : List.find? (fun p => decide (p.1 = k)) a with
  | none =>
    have ha' : getProp a k = none := by simp [getProp, ha]
    cases hb : getProp b k <;> simp [ha', getProp, ha, hb]
  | some p₀ =>
    have hk : p₀.1 = k := by simpa using List.find?_some ha
    have ha' : getProp a k = some p₀.2 := by simp [getProp, ha]
    have hov : overrideWith b p₀ = match getProp b k with
        | some v => (p₀.1, v)
        | none => p₀ := by
      unfold overrideWith
      rw [hk]
    cases hb : getProp b k <;> simp [ha', hov, hb]

theorem mergeObj_nil_right (a : Obj) : mergeObj a [] = a := by
  unfold mergeObj
  have : a.map (overrideWith []) = a.map id :=
    List.map_congr_left (fun p _ => by unfold overrideWith; simp [getProp])
  simp [this]

theorem map_override_single_self (r : Obj) (k : String) (v : Value)
    (hnd : (r.map Prod.fst).Nodup) (hget : getProp r k = some v) :
    r.map (overrideWith [(k, v)]) = r := by
  induction r with
  | nil => rfl
  | cons p rest ih =>
    simp only [List.map_cons, List.nodup_cons] at hnd
    by_cases hp : p.1 = k
    · have hv : p.2 = v := by
        unfold getProp at hget
        rw [List.find?_cons] at hget
        simp [hp] at hget
        exact hget
      have hhead : overrideWith [(k, v)] p = p := by
        unfold overrideWith
        rw [getProp_single, if_pos hp.symm]
        show (p.1, v) = p
        rw [← hv]
      have hrest : rest.map (overrideWith [(k, v)]) = rest := by
        refine (List.map_congr_left (fun q hq => ?_)).trans (List.map_id rest)
        have hqk : q.1 ≠ k := by
          intro hqk
          exact hnd.1 (hp ▸ hqk ▸ List.mem_map_of_mem Prod.fst hq)
        unfold overrideWith
        rw [getProp_single, if_neg (fun h => hqk h.symm)]
        rfl
      simp [List.map_cons, hhead, hrest]
    · have hget' : getProp rest k = some v := by
        unfold getProp at hget ⊢
        rw [List.find?_cons] at hget
        simpa [hp] using hget
      have hhead : overrideWith [(k, v)] p = p := by
        unfold overrideWith
        rw [getProp_single, if_neg (fun h => hp h.symm)]
      simp [List.map_cons, hhead, ih hnd.2 hget']

/-- Re-spreading a property an object already holds with the same value is
the identity (for objects with no duplicate keys). -/
theorem mergeObj_single_self (r : Obj) (k : String) (v : Value)
    (hnd : (r.map Prod.fst).Nodup) (hget : getProp r k = some v) :
    mergeObj r [(k, v)] = r := by
  unfold mergeObj
  have hfilter : List.filter (fun p => (getProp r p.1).isNone) [(k, v)] = [] := by
    simp [List.filter_cons, hget]
  rw [hfilter, List.append_nil, map_override_single_self r k v hnd hget]

/-! ### Store helper lemmas -/

theorem storeAdd_ok {s : Store} {r : Obj} {s' : Store}
    (h : storeAdd s r = Except.ok s') :
    s' = s ++ [r] ∧ s.any (fun x => getJS x keyPath = getJS r keyPath) = false := by
  unfold storeAdd at h
  by_cases hc : s.any (fun x => getJS x keyPath = getJS r keyPath) = true
  · rw [if_pos hc] at h
    exact absurd h (by simp)
  · rw [if_neg hc] at h
    injection h with h'
    exact ⟨h'.symm, by simpa using hc⟩

theorem putRec_self (s : Store) (r : Obj) (hmem : r ∈ s)
    (huniq : ∀ x ∈ s, getJS x keyPath = getJS r keyPath → x = r) :
    putRec s r = s := by
  unfold putRec
  have hany : s.any (fun x => getJS x keyPath = getJS r keyPath) = true :=
    List.any_eq_true.mpr ⟨r, hmem, by simp⟩
  rw [if_pos hany]
  have hmap : s.map (fun x => if getJS x keyPath = getJS r keyPath then r else x)
      = s.map id := List.map_congr_left (fun x hx => by
    by_cases hxk : getJS x keyPath = getJS r keyPath
    · rw [if_pos hxk]
      exact (huniq x hx hxk).symm
    · rw [if_neg hxk]
      rfl)
  rw [hmap, List.map_id]

/-! ### Claim theorems -/

/-- Claim C1: according to the spec (and to the source's own comments), the
accelerated WASM-SIMD Hamming path must return the same value as the scalar
word-wise XOR-popcount loop on every pair of equal-length packed vectors.
The code violates this: `queryBinarySIMD` writes operand B at the fixed
offset 16, which lies inside operand A's byte extent whenever the vectors
are longer than 128 bits.  On the 256-bit pair a = [0,0,0,1], b = [0,0,0,0]
the scalar path returns 1 while the accelerated path returns 0 (b's bytes
overwrite a's only set bit before the kernel reads it); and on the 64-bit
pair a = [7], b = [0] the scalar path returns 3 while the accelerated path
returns no value at all (len = 8 is not a multiple of 16, so the i32
counter skips 0 and the kernel traps). -/
theorem simd_path_differs_from_scalar_path :
    hammingDistance [0, 0, 0, 1] [0, 0, 0, 0] = Except.ok 1 ∧
    queryBinarySIMDDistance [0, 0, 0, 1] [0, 0, 0, 0] = some 0 ∧
    hammingDistance [7] [0] = Except.ok 3 ∧
    queryBinarySIMDDistance [7] [0] = none := by
  refine ⟨by decide, by decide, by decide, by decide⟩

/-- Claim C5: a single `update` on an identifier absent from the store fails
with the not-found error, while `updateBatch` on a patch list containing
that identifier silently skips it and still applies the patch for an
identifier that is present. -/
theorem update_notFound_updateBatch_skips (vp : String) (s : Store)
    (kmiss kpres : Value) (d dpres : Obj) (r : Obj)
    (hmiss : storeGet s kmiss = none) (hpres : storeGet s kpres = some r) :
    update vp s kmiss d = Except.error "Cannot update non-existent key" ∧
    updateBatch vp s [(kmiss, d), (kpres, dpres)]
      = putRec s (applyPatch vp r kpres dpres) := by
  constructor
  · unfold update
    rw [hmiss]
  · unfold updateBatch
    simp only [List.foldl_cons, List.foldl_nil, hmiss, hpres]

/-- Claim C6: updating a stored record with the empty patch leaves the
store unchanged: the empty spread contributes nothing, the key write
rewrites the identifier the record already has, and the vector rule keeps
the stored vector, so the merged record equals the old one and the `put`
writes it back in place.  The hypotheses are the store invariants the
backend guarantees: the record is found under its own key, records carry
their key under "id", keys are unique, records have no duplicate
properties, and every record written by this library has a "vector"
property. -/
theorem update_empty_patch_unchanged (vp : String) (s : Store) (key : Value)
    (r : Obj) (v : Value)
    (hget : storeGet s key = some r)
    (hnd : (r.map Prod.fst).Nodup)
    (hid : getProp r keyPath = some key)
    (hvec : getProp r "vector" = some v)
    (huniq : ∀ x ∈ s, getJS x keyPath = key → x = r) :
    update vp s key [] = Except.ok s := by
  have hmem : r ∈ s := List.mem_of_find?_eq_some hget
  have hkey : getJS r keyPath = key := by
    unfold getJS
    rw [hid]
    rfl
  have hpatch : applyPatch vp r key [] = r := by
    unfold applyPatch
    have h1 : mergeObj r [] = r := mergeObj_nil_right r
    have hv : vecToStore vp r [] = v := by
      unfold vecToStore
      have : getJS ([] : Obj) vp = Value.undef := rfl
      rw [this]
      show (match getJS ([] : Obj) "vector" with
        | Value.arr xs => if 0 < xs.length then Value.arr xs else getJS r "vector"
        | _ => getJS r "vector") = v
      show getJS r "vector" = v
      unfold getJS
      rw [hvec]
      rfl
    rw [h1, mergeObj_single_self r keyPath key hnd hid, hv,
      mergeObj_single_self r "vector" v hnd hvec]
  unfold update
  rw [hget]
  show Except.ok (putRec s (applyPatch vp r key [])) = Except.ok s
  rw [hpatch, putRec_self s r hmem (fun x hx hxk => huniq x hx (hkey ▸ hxk))]

/-- If some record of the batch has a nullish id, `insertBatch` fails, from
whichever store state the transaction starts. -/
theorem insertBatch_error_of_missing_id (embed : Value → List ℚ) (vp : String)
    (batch : List Obj)
    (hbad : ∃ data ∈ batch, nullish (getJS data "id") = true) :
    ∀ s : Store, ∃ msg, insertBatch embed vp s batch = Except.error msg := by
  induction batch with
  | nil => obtain ⟨data, hmem, _⟩ := hbad; exact absurd hmem (List.not_mem_nil data)
  | cons data rest ih =>
    intro s
    by_cases h0 : nullish (getJS data "id") = true
    · exact ⟨"ID is required for batch insert", by unfold insertBatch; rw [if_pos h0]⟩
    · have hrest : ∃ d ∈ rest, nullish (getJS d "id") = true := by
        obtain ⟨d, hmem, hd⟩ := hbad
        rcases List.mem_cons.mp hmem with rfl | hmem'
        · exact absurd hd h0
        · exact ⟨d, hmem', hd⟩
      unfold insertBatch
      rw [if_neg h0]
      cases hadd : storeAdd s (insertRecord embed vp data) with
      | error e => exact ⟨e, rfl⟩
      | ok s' => exact ih hrest s'

/-- Claim C2: an `insertBatch` whose batch contains a record without an id
leaves the store exactly as it was — the transaction errors and the
backend's rollback discards every write of the batch. -/
theorem insertBatch_missing_id_rolls_back (embed : Value → List ℚ) (vp : String)
    (s : Store) (batch : List Obj)
    (hbad : ∃ data ∈ batch, nullish (getJS data "id") = true) :
    insertBatchPost embed vp s batch = s := by
  obtain ⟨msg, hmsg⟩ := insertBatch_error_of_missing_id embed vp batch hbad s
  unfold insertBatchPost
  rw [hmsg]

/-- A successful `insertBatch` appends exactly the records built from the
batch, in order. -/
theorem insertBatch_ok_appends (embed : Value → List ℚ) (vp : String) :
    ∀ (batch : List Obj) (s s' : Store),
      insertBatch embed vp s batch = Except.ok s' →
      s' = s ++ batch.map (insertRecord embed vp) := by
  intro batch
  induction batch with
  | nil =>
    intro s s' h
    unfold insertBatch at h
    injection h with h'
    simp [h'.symm]
  | cons data rest ih =>
    intro s s' h
    unfold insertBatch at h
    by_cases h0 : nullish (getJS data "id") = true
    · rw [if_pos h0] at h
      exact absurd h (by simp)
    · rw [if_neg h0] at h
      cases hadd : storeAdd s (insertRecord embed vp data) with
      | error e =>
        rw [hadd] at h
        exact absurd h (by simp)
      | ok s1 =>
        rw [hadd] at h
        obtain ⟨hs1, -⟩ := storeAdd_ok hadd
        rw [ih s1 s' h, hs1]
        simp

/-- Claim C10: when the input record itself carries a "vector" property, the
spread `{ vector: embedding, ...data }` in `insert`, `insertBinary` and
`insertBatch` lets the supplied value override the computed (or binarized and
packed) embedding, so the supplied value is what the stored record holds
under "vector". -/
theorem input_vector_field_overrides_computed (embed : Value → List ℚ)
    (vp : String) (s : Store) (data : Obj) (v : Value) (batch : List Obj)
    (rec : Obj) (s1 s2 s3 : Store)
    (hv : getProp data "vector" = some v)
    (hbin : insertBinaryRecord embed vp data = Except.ok rec)
    (h1 : insert embed vp s data = Except.ok s1)
    (h2 : insertBinary embed vp s data = Except.ok s2)
    (h3 : insertBatch embed vp s batch = Except.ok s3) :
    getProp (insertRecord embed vp data) "vector" = some v ∧
    getProp rec "vector" = some v ∧
    s1 = s ++ [insertRecord embed vp data] ∧
    s2 = s ++ [rec] ∧
    s3 = s ++ batch.map (insertRecord embed vp) := by
  have hrec : getProp (insertRecord embed vp data) "vector" = some v := by
    unfold insertRecord
    rw [getProp_mergeObj, hv]
    rfl
  have hbinrec : getProp rec "vector" = some v := by
    unfold insertBinaryRecord at hbin
    cases hre : resolveEmbedding embed vp data with
    | arr xs =>
      rw [hre] at hbin
      injection hbin with hbin'
      rw [← hbin', getProp_mergeObj, hv]
      rfl
    | num q => rw [hre] at hbin; exact absurd hbin (by simp)
    | str t => rw [hre] at hbin; exact absurd hbin (by simp)
    | bool b => rw [hre] at hbin; exact absurd hbin (by simp)
    | packed ws => rw [hre] at hbin; exact absurd hbin (by simp)
    | null => rw [hre] at hbin; exact absurd hbin (by simp)
    | undef => rw [hre] at hbin; exact absurd hbin (by simp)
  refine ⟨hrec, hbinrec, ?_, ?_, insertBatch_ok_appends embed vp batch s s3 h3⟩
  · unfold insert at h1
    by_cases h0 : nullish (getJS data "id") = true
    · rw [if_pos h0] at h1
      exact absurd h1 (by simp)
    · rw [if_neg h0] at h1
      exact (storeAdd_ok h1).1
  · unfold insertBinary at h2
    by_cases h0 : nullish (getJS data "id") = true
    · rw [if_pos h0] at h2
      exact absurd h2 (by simp)
    · rw [if_neg h0, hbin] at h2
      exact (storeAdd_ok h2).1

/-- Claim C9 (amended): the presence checks report an embedding only when
the resolved vector field (`record[vectorPath] ?? record.vector`) is a plain
array of nonzero length; a record stored via `insertBinary` whose input
carried no own "vector" property and no value at the configured vector path
resolves to the packed word array — not a plain array — and reports false,
even though it holds a vector. -/
theorem hasEmbedding_requires_plain_array (vp : String)
    (embed : Value → List ℚ) (s s' : Store) (data : Obj)
    (s₀ : Store) (k₀ : Value)
    (htrue : hasEmbedding vp s₀ k₀ = true)
    (hins : insertBinary embed vp s data = Except.ok s')
    (hvp0 : getProp data vp = none)
    (hvec0 : getProp data "vector" = none) :
    (∃ r xs, storeGet s₀ k₀ = some r ∧ resolveVec vp r = Value.arr xs ∧ 0 < xs.length) ∧
    hasEmbedding vp s' (getJS data "id") = false ∧
    hasEmbeddings vp s' [getJS data "id"] = [(getJS data "id", false)] := by
  constructor
  · unfold hasEmbedding hasVecCheck at htrue
    cases hsg : storeGet s₀ k₀ with
    | none => rw [hsg] at htrue; exact absurd htrue (by simp)
    | some r =>
      rw [hsg] at htrue
      have htrue' : (match resolveVec vp r with
          | Value.arr xs => decide (0 < xs.length)
          | _ => false) = true := htrue
      cases hrv : resolveVec vp r with
      | arr xs =>
        rw [hrv] at htrue'
        exact ⟨r, xs, rfl, hrv, of_decide_eq_true htrue'⟩
      | num q => rw [hrv] at htrue'; exact absurd htrue' (by simp)
      | str t => rw [hrv] at htrue'; exact absurd htrue' (by simp)
      | bool b => rw [hrv] at htrue'; exact absurd htrue' (by simp)
      | packed ws => rw [hrv] at htrue'; exact absurd htrue' (by simp)
      | null => rw [hrv] at htrue'; exact absurd htrue' (by simp)
      | undef => rw [hrv] at htrue'; exact absurd htrue' (by simp)
  · unfold insertBinary at hins
    by_cases h0 : nullish (getJS data "id") = true
    · rw [if_pos h0] at hins
      exact absurd hins (by simp)
    rw [if_neg h0] at hins
    cases hbr : insertBinaryRecord embed vp data with
    | error e =>
      rw [hbr] at hins
      exact absurd hins (by simp)
    | ok rec =>
    rw [hbr] at hins
    have hrecEq' : ∃ pk, rec = mergeObj [("vector", Value.packed pk)] data := by
      unfold insertBinaryRecord at hbr
      cases hre : resolveEmbedding embed vp data with
      | arr xs =>
        rw [hre] at hbr
        injection hbr with hbr'
        exact ⟨packWords (binarizeVector xs none), hbr'.symm⟩
      | num q => rw [hre] at hbr; exact absurd hbr (by simp)
      | str t => rw [hre] at hbr; exact absurd hbr (by simp)
      | bool b => rw [hre] at hbr; exact absurd hbr (by simp)
      | packed ws => rw [hre] at hbr; exact absurd hbr (by simp)
      | null => rw [hre] at hbr; exact absurd hbr (by simp)
      | undef => rw [hre] at hbr; exact absurd hbr (by simp)
    obtain ⟨pk, hrecEq⟩ := hrecEq'
    obtain ⟨hs', hany⟩ := storeAdd_ok hins
    have hgp : ∀ k : String, getProp rec k
        = (getProp data k).or (if "vector" = k then some (Value.packed pk) else none) := by
      intro k
      rw [hrecEq, getProp_mergeObj, getProp_single]
    have hrecid : getJS rec "id" = getJS data "id" := by
      unfold getJS
      rw [hgp "id"]
      cases getProp data "id" <;> rfl
    have hnotin : ∀ x ∈ s, ¬(getJS x keyPath = getJS rec keyPath) := by
      simpa using hany
    have hfindS : List.find? (fun x => getJS x keyPath = getJS data "id") s = none := by
      rw [List.find?_eq_none]
      intro x hx
      have hx' := hnotin x hx
      rw [show getJS rec keyPath = getJS data "id" from hrecid] at hx'
      simpa using hx'
    have hsg' : storeGet s' (getJS data "id") = some rec := by
      unfold storeGet
      rw [hs', List.find?_append, hfindS]
      simp [List.find?_cons, keyPath, hrecid]
    have hresolve : resolveVec vp rec = Value.packed pk := by
      unfold resolveVec
      by_cases hveq : vp = "vector"
      · have : getProp rec vp = some (Value.packed pk) := by
          rw [hgp vp, hveq, hvec0]
          simp
        unfold getJS
        rw [this]
        rfl
      · have h1 : getProp rec vp = none := by
          rw [hgp vp, hvp0, if_neg (fun h => hveq h.symm)]
          rfl
        have h2 : getProp rec "vector" = some (Value.packed pk) := by
          rw [hgp "vector", hvec0]
          simp
        unfold getJS
        rw [h1, h2]
        rfl
    have hcheck : hasVecCheck vp s' (getJS data "id") = false := by
      unfold hasVecCheck
      rw [hsg']
      show (match resolveVec vp rec with
        | Value.arr xs => decide (0 < xs.length)
        | _ => false) = false
      rw [hresolve]
    exact ⟨hcheck, by unfold hasEmbeddings; rw [List.map_cons, List.map_nil, hcheck]⟩

/-- Claim C9 counterexample: a record stored through `insertBinary` whose
input carried a plain array under the configured vector path ("emb") makes
`hasEmbedding` report true — the input array survives the spread and
resolves before the packed vector — contradicting the claim that every
record stored via `insertBinary` reports false. -/
theorem hasEmbedding_insertBinary_reports_true :
    (insertBinary (fun _ => []) "emb" []
        [("id", Value.num 1), ("emb", Value.arr [0, 1, 2])]).map
      (fun s' => hasEmbedding "emb" s' (Value.num 1)) = Except.ok true := by
  decide

theorem mapScores_ok_length (f : Obj → Except String α) :
    ∀ (l : List Obj) (out : List α),
      mapScores f l = Except.ok out → out.length = l.length := by
  intro l
  induction l with
  | nil =>
    intro out h
    unfold mapScores at h
    injection h with h'
    rw [← h']
    rfl
  | cons e rest ih =>
    intro out h
    unfold mapScores at h
    cases hf : f e with
    | error m => rw [hf] at h; exact absurd h (by simp)
    | ok x =>
      rw [hf] at h
      cases hrest : mapScores f rest with
      | error m => rw [hrest] at h; exact absurd h (by simp)
      | ok xs =>
        rw [hrest] at h
        injection h with h'
        rw [← h']
        simp [ih xs hrest]

theorem query_ok_slice (embed : Value → List ℚ) (qt : Value) (recs : List Obj)
    (limit : ℤ) (out : List (Obj × Option ℝ))
    (h : query embed qt recs limit = Except.ok out) :
    ∃ sims : List (Obj × Option ℝ), sims.length = recs.length ∧
      out = jsSlice0 (insSort simDescBefore sims) limit := by
  unfold query at h
  simp only [] at h
  split at h
  · exact absurd h (by simp)
  · rename_i sims heq
    injection h with h'
    exact ⟨sims, mapScores_ok_length _ recs sims heq, h'.symm⟩

theorem queryBinary_ok_slice (embed : Value → List ℚ) (qt : Value)
    (recs : List Obj) (limit : ℤ) (out : List (Obj × ℕ))
    (h : queryBinary embed qt recs limit = Except.ok out) :
    ∃ dists : List (Obj × ℕ), dists.length = recs.length ∧
      out = jsSlice0 (insSort distAscBefore dists) limit := by
  unfold queryBinary at h
  simp only [] at h
  split at h
  · exact absurd h (by simp)
  · rename_i dists heq
    injection h with h'
    exact ⟨dists, mapScores_ok_length _ recs dists heq, h'.symm⟩

theorem length_filterMap_map (f : Obj → Option (List ℚ)) (g : Obj → List ℚ → α)
    (l : List Obj) :
    (l.filterMap (fun e => (f e).map (g e))).length = (l.filterMap f).length := by
  induction l with
  | nil => rfl
  | cons e rest ih =>
    cases hf : f e <;> simp [List.filterMap_cons, hf, ih]

/-- Claim C4 (amended): a limit of 0, or an empty store, yields an empty
result in all three modes; a strictly negative limit does not —
`slice(0, limit)` with a negative bound keeps all but the last |limit|
sorted results, so the result has length n - |limit| (clamped at zero,
with n the number of scored records) and is nonempty whenever the store
holds more than |limit| scorable records. -/
theorem query_limit_zero_and_negative (embed : Value → List ℚ) (vp : String)
    (qt : Value) (qv : List ℚ) (recsD recsB recsM : List Obj)
    (limAny limNeg : ℤ)
    (out1 out4 : List (Obj × Option ℝ)) (out2 out5 : List (Obj × ℕ))
    (hneg : limNeg < 0)
    (h1 : query embed qt recsD 0 = Except.ok out1)
    (h2 : queryBinary embed qt recsB 0 = Except.ok out2)
    (h4 : query embed qt recsD limNeg = Except.ok out4)
    (h5 : queryBinary embed qt recsB limNeg = Except.ok out5) :
    out1 = [] ∧ out2 = [] ∧ queryManualVectors vp qv recsM 0 = [] ∧
    query embed qt [] limAny = Except.ok [] ∧
    queryBinary embed qt [] limAny = Except.ok [] ∧
    queryManualVectors vp qv [] limAny = [] ∧
    out4.length = recsD.length - (-limNeg).toNat ∧
    out5.length = recsB.length - (-limNeg).toNat ∧
    (queryManualVectors vp qv recsM limNeg).length
      = (recsM.filterMap (resolveManual vp)).length - (-limNeg).toNat := by
  obtain ⟨sims1, hlen1, hout1⟩ := query_ok_slice embed qt recsD 0 out1 h1
  obtain ⟨dists2, hlen2, hout2⟩ := queryBinary_ok_slice embed qt recsB 0 out2 h2
  obtain ⟨sims4, hlen4, hout4⟩ := query_ok_slice embed qt recsD limNeg out4 h4
  obtain ⟨dists5, hlen5, hout5⟩ := queryBinary_ok_slice embed qt recsB limNeg out5 h5
  have hnotle : ¬(0 : ℤ) ≤ limNeg := by omega
  refine ⟨?_, ?_, ?_, ?_, ?_, ?_, ?_, ?_, ?_⟩
  · rw [hout1, jsSlice0_zero]
  · rw [hout2, jsSlice0_zero]
  · simp [queryManualVectors, jsSlice0_zero]
  · simp [query, mapScores, insSort, jsSlice0_nil]
  · simp [queryBinary, mapScores, insSort, jsSlice0_nil]
  · simp [queryManualVectors, insSort, jsSlice0_nil]
  · rw [hout4, length_jsSlice0, if_neg hnotle, length_insSort, hlen4]
  · rw [hout5, length_jsSlice0, if_neg hnotle, length_insSort, hlen5]
  · simp only [queryManualVectors]
    rw [length_jsSlice0, if_neg hnotle, length_insSort, length_filterMap_map]

/-- Claim C4 counterexample: with two stored records and limit -1, the
binary-mode query returns one record, not an empty sequence, because
`slice(0, -1)` keeps everything but the last element. -/
theorem queryBinary_negative_limit_not_empty :
    queryBinary (fun _ => [0, 1, 2]) (Value.str "q")
      [[("id", Value.num 1), ("vector", Value.packed [6])],
       [("id", Value.num 2), ("vector", Value.packed [0])]] (-1)
    = Except.ok [([("id", Value.num 1), ("vector", Value.packed [6])], 0)] := by
  decide

/-- Claim C7: with an omitted threshold, `binarizeVector` thresholds at the
median of the vector's values (average of the two middle sorted values for
even length, middle sorted value for odd length), mapping each component to
1 exactly when it is ≥ the threshold; in particular
`binarize([0.1, 0.9, 0.5, 0.4])` yields `[0, 1, 1, 0]`. -/
theorem binarizeVector_default_median :
    (∀ v : List ℚ,
      binarizeVector v none = v.map (fun val => if specMedian v ≤ val then 1 else 0)) ∧
    binarizeVector [1/10, 9/10, 1/2, 2/5] none = [0, 1, 1, 0] := by
  constructor
  · intro v
    unfold binarizeVector specMedian
    simp only [sortValsAsc, length_insSort]
  · norm_num [binarizeVector, sortValsAsc, insSort, insSorted]

theorem dotGo_none (b : List ℝ) (l : List ℝ) (i : ℕ) :
    dotGo b l i none = none := by
  induction l generalizing i with
  | nil => rfl
  | cons val rest ih =>
    unfold dotGo
    have : jsAdd none (jsMul (some val) (b.get? i)) = none := rfl
    rw [this, ih]

theorem dotGo_isSome (b : List ℝ) :
    ∀ (l : List ℝ) (i : ℕ) (sum : Option ℝ), sum.isSome →
      (∀ j, j < l.length → i + j < b.length) → (dotGo b l i sum).isSome := by
  intro l
  induction l with
  | nil => intro i sum hsum _; exact hsum
  | cons val rest ih =>
    intro i sum hsum hall
    unfold dotGo
    obtain ⟨x, hx⟩ := Option.isSome_iff_exists.mp hsum
    have hib : i < b.length := by simpa using hall 0 (by simp)
    have hy : b.get? i = some b[i] := by
      rw [List.get?_eq_getElem?]
      exact List.getElem?_eq_getElem hib
    refine ih (i + 1) _ ?_ ?_
    · rw [hx, hy]
      rfl
    · intro j hj
      have := hall (j + 1) (by simpa using Nat.succ_lt_succ hj)
      omega

theorem dotGo_oob_none (b : List ℝ) :
    ∀ (l : List ℝ) (i : ℕ) (sum : Option ℝ),
      (∃ j, j < l.length ∧ b.length ≤ i + j) → dotGo b l i sum = none := by
  intro l
  induction l with
  | nil =>
    intro i sum h
    obtain ⟨j, hj, -⟩ := h
    exact absurd hj (by simp)
  | cons val rest ih =>
    intro i sum h
    obtain ⟨j, hj, hb⟩ := h
    unfold dotGo
    by_cases hib : b.length ≤ i
    · have hnone : b.get? i = none := by
        rw [List.get?_eq_getElem?]
        exact List.getElem?_eq_none hib
      have : jsAdd sum (jsMul (some val) (b.get? i)) = none := by
        rw [hnone]
        cases sum <;> rfl
      rw [this, dotGo_none]
    · have hj' : 0 < j := by omega
      exact ih (i + 1) _ ⟨j - 1, by simpa using Nat.sub_lt_right_of_lt_add hj' (by simpa using hj), by omega⟩

/-- Claim C3 (amended): `cosineSimilarity` performs no length check and
never raises.  When vecA is longer than vecB the out-of-range reads of
vecB poison the dot product to NaN (no finite value); when vecA is not
longer, it returns the finite value dot/(‖vecA‖·‖vecB‖) computed over
vecA's indices whenever the magnitude product is nonzero — it does not
fail with a LengthMismatch error on unequal lengths. -/
theorem cosineSimilarity_has_no_length_check (a b : List ℝ) :
    (b.length < a.length → cosineSimilarity a b = none) ∧
    (a.length ≤ b.length → magJS a * magJS b ≠ 0 →
      ∃ r : ℝ, cosineSimilarity a b = some r) := by
  constructor
  · intro hlt
    unfold cosineSimilarity dotJS
    rw [dotGo_oob_none b a 0 (some 0) ⟨b.length, by omega⟩]
    rfl
  · intro hle hmag
    have hsome : (dotJS a b).isSome := by
      unfold dotJS
      exact dotGo_isSome b a 0 (some 0) rfl (fun j hj => by omega)
    obtain ⟨x, hx⟩ := Option.isSome_iff_exists.mp hsome
    refine ⟨x / (magJS a * magJS b), ?_⟩
    unfold cosineSimilarity jsDiv
    rw [hx]
    show (if magJS a * magJS b = 0 then none
      else some (x / (magJS a * magJS b))) = some (x / (magJS a * magJS b))
    rw [if_neg hmag]

/-- Claim C3 counterexample: on the unequal-length pair [3] and [3, 4] the
source's cosine similarity returns the value 3/5 = 9/(3·5) instead of
failing with a LengthMismatch error. -/
theorem cosineSimilarity_unequal_returns_value :
    cosineSimilarity [(3 : ℝ)] [3, 4] = some (3 / 5) := by
  have h9 : Real.sqrt ((0 : ℝ) + 3 * 3) = 3 := by
    rw [show ((0 : ℝ) + 3 * 3) = 3 ^ 2 by norm_num]
    exact Real.sqrt_sq (by norm_num)
  have h25 : Real.sqrt (((0 : ℝ) + 3 * 3) + 4 * 4) = 5 := by
    rw [show (((0 : ℝ) + 3 * 3) + 4 * 4) = 5 ^ 2 by norm_num]
    exact Real.sqrt_sq (by norm_num)
  have hdot : dotJS [(3 : ℝ)] [3, 4] = some 9 := by
    simp only [dotJS, dotGo]
    norm_num [jsAdd, jsMul, List.get?]
  have hmagA : magJS [(3 : ℝ)] = 3 := by
    unfold magJS
    simp only [List.foldl_cons, List.foldl_nil]
    exact h9
  have hmagB : magJS [(3 : ℝ), 4] = 5 := by
    unfold magJS
    simp only [List.foldl_cons, List.foldl_nil]
    exact h25
  unfold cosineSimilarity jsDiv
  rw [hdot, hmagA, hmagB]
  norm_num

theorem getD_replicate_zero (W j : ℕ) : (List.replicate W (0 : ℕ)).getD j 0 = 0 := by
  rw [List.getD_eq_getElem?_getD, List.getElem?_replicate]
  by_cases h : j < W <;> simp [h]

theorem div64_lt_ceil (n L : ℕ) (h : n < L) : n / 64 < (L + 63) / 64 := by
  have h1 : (n + 64) / 64 = n / 64 + 1 := Nat.add_div_right n (by norm_num)
  have h2 : (n + 64) / 64 ≤ (L + 63) / 64 := Nat.div_le_div_right (by omega)
  omega

theorem packWords_fold_invariant (bits : List ℚ) (n : ℕ) (hn : n ≤ bits.length) :
    ((List.range n).foldl (packStep bits)
        (List.replicate ((bits.length + 63) / 64) 0)).length
      = (bits.length + 63) / 64 ∧
    ∀ j, j < (bits.length + 63) / 64 → ∀ k, k < 64 →
      ((((List.range n).foldl (packStep bits)
          (List.replicate ((bits.length + 63) / 64) 0)).getD j 0).testBit k = true
        ↔ (64 * j + k < n ∧ bits.getD (64 * j + k) 0 = 1)) := by
  induction n with
  | zero =>
    refine ⟨by simp, fun j hj k hk => ?_⟩
    simp [getD_replicate_zero]
  | succ n ih =>
    obtain ⟨ihlen, ihbit⟩ := ih (by omega)
    rw [List.range_succ, List.foldl_append, List.foldl_cons, List.foldl_nil]
    set ws := (List.range n).foldl (packStep bits)
      (List.replicate ((bits.length + 63) / 64) 0) with hws
    unfold packStep
    by_cases hbit : bits.getD n 0 = 1
    · rw [if_pos hbit]
      have hjlt : n / 64 < ws.length := by
        rw [ihlen]
        exact div64_lt_ceil n bits.length (by omega)
      refine ⟨by simp [ihlen], fun j hj k hk => ?_⟩
      have hgd : (ws.set (n / 64)
            (((ws.getD (n / 64) 0) ||| (1 <<< (n % 64))) % 2 ^ 64)).getD j 0
          = if n / 64 = j then ((ws.getD (n / 64) 0) ||| (1 <<< (n % 64))) % 2 ^ 64
            else ws.getD j 0 := by
        rw [List.getD_eq_getElem?_getD, List.getElem?_set]
        by_cases hj' : n / 64 = j
        · rw [if_pos hj', if_pos hjlt, if_pos hj']
          rfl
        · rw [if_neg hj', if_neg hj', ← List.getD_eq_getElem?_getD]
      rw [hgd]
      have hiff := ihbit j hj k hk
      have hsplit : 64 * j + k = n ↔ (n / 64 = j ∧ n % 64 = k) := by
        have hdm := Nat.div_add_mod n 64
        constructor
        · intro he
          have hmod : n % 64 < 64 := Nat.mod_lt _ (by norm_num)
          omega
        · intro ⟨h1, h2⟩
          omega
      by_cases hj' : n / 64 = j
      · rw [if_pos hj', hj']
        rw [Nat.one_shiftLeft, Nat.testBit_mod_two_pow, Nat.testBit_or,
          Nat.testBit_two_pow]
        simp only [Bool.and_eq_true, Bool.or_eq_true, decide_eq_true_eq]
        rw [hiff]
        constructor
        · rintro ⟨-, (⟨hlt, hb⟩ | hnk)⟩
          · exact ⟨by omega, hb⟩
          · have he : 64 * j + k = n := hsplit.mpr ⟨hj', hnk⟩
            exact ⟨by omega, by rw [he]; exact hbit⟩
        · rintro ⟨hlt, hb⟩
          refine ⟨hk, ?_⟩
          by_cases he : 64 * j + k = n
          · exact Or.inr (hsplit.mp he).2
          · exact Or.inl ⟨by omega, hb⟩
      · rw [if_neg hj', hiff]
        have hne : 64 * j + k ≠ n := fun he => hj' (hsplit.mp he).1
        constructor
        · rintro ⟨hlt, hb⟩
          exact ⟨by omega, hb⟩
        · rintro ⟨hlt, hb⟩
          exact ⟨by omega, hb⟩
    · rw [if_neg hbit]
      refine ⟨ihlen, fun j hj k hk => ?_⟩
      rw [ihbit j hj k hk]
      constructor
      · rintro ⟨hlt, hb⟩
        exact ⟨by omega, hb⟩
      · rintro ⟨hlt, hb⟩
        by_cases he : 64 * j + k = n
        · exact absurd (he ▸ hb) hbit
        · exact ⟨by omega, hb⟩

theorem packWords_testBit (bits : List ℚ) (i : ℕ) (hi : i < bits.length) :
    (((packWords bits).getD (i / 64) 0).testBit (i % 64) = true
      ↔ bits.getD i 0 = 1) := by
  obtain ⟨-, hbit⟩ := packWords_fold_invariant bits bits.length le_rfl
  have hj : i / 64 < (bits.length + 63) / 64 := div64_lt_ceil i bits.length hi
  have hk : i % 64 < 64 := Nat.mod_lt _ (by norm_num)
  unfold packWords
  rw [hbit (i / 64) hj (i % 64) hk, Nat.div_add_mod i 64]
  exact ⟨fun h => h.2, fun h => ⟨hi, h⟩⟩

/-- Claim C8: for every binary sequence (entries 0 or 1), unpacking the
packed representation back to the original length recovers the sequence
exactly — packing places bit `i` in word `i / 64` at position `i mod 64`
(least-significant-bit first) across `ceil(len/64)` words, and unpacking
reads it back from there. -/
theorem unpack_pack_roundtrip (bits : List ℚ)
    (hb : ∀ x ∈ bits, x = 0 ∨ x = 1) :
    unpackWords (packWords bits) bits.length = bits := by
  unfold unpackWords
  apply List.ext_getElem
  · simp
  · intro i hi1 hi2
    have hi : i < bits.length := by simpa using hi2
    have hgd : bits.getD i 0 = bits[i] := by
      rw [List.getD_eq_getElem?_getD, List.getElem?_eq_getElem hi]
      rfl
    rw [List.getElem_map, List.getElem_range]
    by_cases hset : ((packWords bits).getD (i / 64) 0).testBit (i % 64) = true
    · rw [if_pos hset]
      have := (packWords_testBit bits i hi).mp hset
      rw [hgd] at this
      exact this.symm
    · rw [if_neg hset]
      have hnot : ¬bits.getD i 0 = 1 := fun h =>
        hset ((packWords_testBit bits i hi).mpr h)
      rw [hgd] at hnot
      rcases hb bits[i] (List.getElem_mem hi) with h0 | h1
      · exact h0.symm
      · exact absurd h1 hnot

/-! ### Concrete witnesses for the claim theorems with hypotheses -/

/-- Witness for the C2 theorem: a two-record batch whose second record lacks
an id leaves a one-record store untouched. -/
theorem insertBatch_missing_id_rolls_back_witness :
    insertBatchPost (fun _ => []) "vector"
      [[("id", Value.num 7), ("vector", Value.arr [1])]]
      [[("id", Value.num 1), ("vector", Value.arr [2])],
       [("note", Value.str "no id")]]
    = [[("id", Value.num 7), ("vector", Value.arr [1])]] :=
  insertBatch_missing_id_rolls_back (fun _ => []) "vector"
    [[("id", Value.num 7), ("vector", Value.arr [1])]]
    [[("id", Value.num 1), ("vector", Value.arr [2])],
     [("note", Value.str "no id")]]
    ⟨[("note", Value.str "no id")], by decide, by decide⟩

/-- Witness for the C3 theorem: a longer vecA yields NaN (no finite value),
a shorter vecA yields a finite similarity. -/
theorem cosineSimilarity_has_no_length_check_witness :
    cosineSimilarity [(3 : ℝ), 1] [5] = none ∧
    ∃ r : ℝ, cosineSimilarity [(3 : ℝ)] [3, 4] = some r := by
  constructor
  · exact (cosineSimilarity_has_no_length_check [(3 : ℝ), 1] [5]).1 (by decide)
  · refine (cosineSimilarity_has_no_length_check [(3 : ℝ)] [3, 4]).2 (by decide) ?_
    have h1 : magJS [(3 : ℝ)] ≠ 0 := by
      unfold magJS
      simp only [List.foldl_cons, List.foldl_nil]
      exact Real.sqrt_ne_zero'.mpr (by norm_num)
    have h2 : magJS [(3 : ℝ), 4] ≠ 0 := by
      unfold magJS
      simp only [List.foldl_cons, List.foldl_nil]
      exact Real.sqrt_ne_zero'.mpr (by norm_num)
    exact mul_ne_zero h1 h2

/-- Witness for the C4 theorem: with one manual-vector record and limit 0
the manual query is empty. -/
theorem query_limit_zero_and_negative_witness :
    queryManualVectors "vector" [1]
      [[("id", Value.num 1), ("vector", Value.arr [2])]] 0 = [] :=
  (query_limit_zero_and_negative (fun _ => [0, 1, 2]) "vector" (Value.str "q") [1]
    [[("id", Value.num 1), ("vector", Value.arr [2])]]
    [[("id", Value.num 1), ("vector", Value.packed [6])]]
    [[("id", Value.num 1), ("vector", Value.arr [2])]]
    5 (-1) [] [] [] []
    (by decide) (by rfl) (by decide) (by rfl) (by decide)).2.2.1

/-- Witness for the C5 theorem: single update of an absent key fails while
the batch skips it. -/
theorem update_notFound_updateBatch_skips_witness :
    update "vector" [[("id", Value.num 1), ("vector", Value.arr [1, 2])]]
        (Value.num 2) [("note", Value.str "x")]
      = Except.error "Cannot update non-existent key" :=
  (update_notFound_updateBatch_skips "vector"
    [[("id", Value.num 1), ("vector", Value.arr [1, 2])]]
    (Value.num 2) (Value.num 1)
    [("note", Value.str "x")] [("note", Value.str "y")]
    [("id", Value.num 1), ("vector", Value.arr [1, 2])]
    (by decide) (by decide)).1

/-- Witness for the C6 theorem: an empty patch leaves a concrete
three-field record, and the whole store, unchanged. -/
theorem update_empty_patch_unchanged_witness :
    update "vector"
      [[("id", Value.num 1), ("vector", Value.arr [1, 2]), ("tag", Value.str "a")]]
      (Value.num 1) []
    = Except.ok
      [[("id", Value.num 1), ("vector", Value.arr [1, 2]), ("tag", Value.str "a")]] :=
  update_empty_patch_unchanged "vector"
    [[("id", Value.num 1), ("vector", Value.arr [1, 2]), ("tag", Value.str "a")]]
    (Value.num 1)
    [("id", Value.num 1), ("vector", Value.arr [1, 2]), ("tag", Value.str "a")]
    (Value.arr [1, 2])
    (by decide) (by decide) (by decide) (by decide) (by decide)

/-- Witness for the C8 theorem: the three-bit sequence 1,0,1 survives the
pack/unpack roundtrip. -/
theorem unpack_pack_roundtrip_witness :
    unpackWords (packWords [1, 0, 1]) 3 = [1, 0, 1] :=
  unpack_pack_roundtrip [1, 0, 1] (by decide)

/-- Witness for the C9 theorem: a text-embedded `insertBinary` record (no
input field at the vector path, no input "vector" field) reports false. -/
theorem hasEmbedding_requires_plain_array_witness :
    hasEmbedding "emb"
      [[("vector", Value.packed [6]), ("id", Value.num 1), ("text", Value.str "hi")]]
      (Value.num 1) = false :=
  (hasEmbedding_requires_plain_array "emb" (fun _ => [0, 1, 2]) []
    [[("vector", Value.packed [6]), ("id", Value.num 1), ("text", Value.str "hi")]]
    [("id", Value.num 1), ("text", Value.str "hi")]
    [[("id", Value.num 2), ("vector", Value.arr [1])]] (Value.num 2)
    (by decide) (by decide) (by decide) (by decide)).2.1

/-- Witness for the C10 theorem: a record supplying both the configured
vector field and its own "vector" field stores the supplied "vector". -/
theorem input_vector_field_overrides_computed_witness :
    getProp (insertRecord (fun _ => [0, 1, 2]) "emb"
        [("id", Value.num 1), ("emb", Value.arr [0, 1, 2]), ("vector", Value.arr [5])])
      "vector" = some (Value.arr [5]) :=
  (input_vector_field_overrides_computed (fun _ => [0, 1, 2]) "emb" []
    [("id", Value.num 1), ("emb", Value.arr [0, 1, 2]), ("vector", Value.arr [5])]
    (Value.arr [5]) []
    [("vector", Value.arr [5]), ("id", Value.num 1), ("emb", Value.arr [0, 1, 2])]
    [[("vector", Value.arr [5]), ("id", Value.num 1), ("emb", Value.arr [0, 1, 2])]]
    [[("vector", Value.arr [5]), ("id", Value.num 1), ("emb", Value.arr [0, 1, 2])]]
    []
    (by decide) (by decide) (by decide) (by decide) (by decide)).1

end EntityDB
